import Mathlib

/-!
Verification development for the noodles snapshot-and-incremental-regeneration
engine (`src/unslop/diagram.py` and `src/unslop/unslop_dir_management.py`).

Python functions are shallowly embedded as Lean definitions.  Filesystem state
and external services (manifest files on disk, the text-generation service,
the d2 renderer, `shutil.copy2` outcomes) are passed in as explicit parameters
or boolean oracles, so every definition is executable.  Definitions whose
Python source lives outside the provided tree (`manifest.py`, `cli.py`) are
modelled from the specification and say so in their doc comment.
-/

/-! ## String helpers mirroring the Python `str` operations used by the code

Python strings are sequences of code points; `String.data` is the code-point
list, so `startswith`, slicing by `len`, and `rstrip("/")` are modelled on
`List Char` directly. -/

/-- Python `s.startswith(p)`: `p`'s code points are an initial segment of `s`'s. -/
def strStartsWith (s p : String) : Bool :=
  p.data.isPrefixOf s.data

/-- Python `s[n:]`: drop the first `n` code points. -/
def strDropChars (s : String) (n : Nat) : String :=
  ⟨s.data.drop n⟩

/-- Python `s.rstrip("/")`: remove all trailing `'/'` code points. -/
def stripTrailingSlashes (s : String) : String :=
  ⟨(s.data.reverse.dropWhile (fun c => c = '/')).reverse⟩

/-- Sorting a list of strings ascending, modelling Python `sorted` on `str`. -/
def sortStrings (l : List String) : List String :=
  List.insertionSort (fun a b => a ≤ b) l

/-! ## Manifest data model (spec §3, §6) -/

/-- One entry of a persisted manifest: content hash, byte size and
modification time for one file, keyed externally by its relative path. -/
structure ManifestEntry where
  hash : String
  size : Nat
  mtime : Int
deriving DecidableEq, Repr

/-- The keys of a manifest's `files` mapping, in insertion order. -/
def manifestKeys (m : List (String × ManifestEntry)) : List String :=
  m.map (fun p => p.1)

/-- First-match lookup in a manifest association list (Python dict lookup). -/
def lookupEntry : List (String × ManifestEntry) → String → Option ManifestEntry
  | [], _ => none
  | (k, e) :: t, q => if k = q then some e else lookupEntry t q

/-! ## ChangeSetComputer (spec §4.3), modelled from the spec -/

/-- The diff of two manifests into added / modified / deleted path lists. -/
structure ChangeSummary where
  added : List String
  modified : List String
  deleted : List String
deriving DecidableEq, Repr

/-- Modelled from the spec: `summarize_changes`, the ChangeSetComputer of
`src/unslop/manifest.py`, which is not under the provided source tree (only its
callers in `diagram.py` are).  Spec §4.3: `added = keys(current) −
keys(previous)`; `deleted = keys(previous) − keys(current)`; a key present in
both manifests is `modified` iff the two content hashes differ; the hash is the
sole criterion, size and mtime are ignored. -/
def summarize_changes (previous current : List (String × ManifestEntry)) :
    ChangeSummary where
  added := (manifestKeys current).filter (fun k => (lookupEntry previous k).isNone)
  modified := (manifestKeys current).filter (fun k =>
    match lookupEntry previous k, lookupEntry current k with
    | some ep, some ec => decide (ep.hash ≠ ec.hash)
    | _, _ => false)
  deleted := (manifestKeys previous).filter (fun k => (lookupEntry current k).isNone)

/-! ## Embedding of `_load_changed_files` and `_load_all_files`
(`src/unslop/diagram.py`)

Filesystem reads are passed in explicitly: whether the current run's
`manifest.json` exists, the result of `find_previous_manifest` together with
the readability of that manifest (`some (some entries)` = found and readable,
`some none` = found but `read_manifest_entries` failed, `none` = not found),
the read of the current manifest, the result of `source_dir.relative_to(root)`
(`none` models the `ValueError`), and an `is_file` oracle for paths under the
source directory. -/

/-- Python dict insertion: if the key is present its value is updated in
place, otherwise the pair is appended. -/
def insertAssoc (m : List (String × String)) (k v : String) :
    List (String × String) :=
  if m.any (fun p => p.1 = k) then
    m.map (fun p => if p.1 = k then (k, v) else p)
  else
    m ++ [(k, v)]

/-- The per-path body of the loop in `_load_changed_files` (lines 277-296):
drop paths outside the source-dir path, rebase by slicing off the
computed leading segment, keep deleted paths unconditionally, and keep
added/modified paths only when the rebased file exists on disk. -/
def changed_file_step (pre : String) (summary : ChangeSummary)
    (is_file : String → Bool) (q : String) : Option (String × String) :=
  if pre ≠ "" ∧ strStartsWith q pre = false then none
  else
    let k := if pre ≠ "" then strDropChars q pre.length else q
    if k = "" then none
    else if k ∈ summary.deleted then some (k, "deleted")
    else if is_file k = false then none
    else if k ∈ summary.added then some (k, "added")
    else some (k, "updated")

/-- The rebased form of a changed path: `path_str[len(prefix):]` when a
leading segment is in effect, the path itself otherwise. -/
def rebase (pre q : String) : String :=
  if pre ≠ "" then strDropChars q pre.length else q

/-- The part of `changed_file_step` after the outside-the-source-dir test,
expressed through `rebase` for proof convenience. -/
def changed_file_core (pre : String) (summary : ChangeSummary)
    (is_file : String → Bool) (q : String) : Option (String × String) :=
  if rebase pre q = "" then none
  else if rebase pre q ∈ summary.deleted then some (rebase pre q, "deleted")
  else if is_file (rebase pre q) = false then none
  else if rebase pre q ∈ summary.added then some (rebase pre q, "added")
  else some (rebase pre q, "updated")

/-- The leading segment computed at lines 264-274 of `_load_changed_files`:
`relative_source.as_posix()`, then `rstrip("/") + "/"` unless empty or `"."`. -/
def sourceRel (rel : String) : String :=
  if rel = "" ∨ rel = "." then "" else stripTrailingSlashes rel ++ "/"

/-- Structural form of the dict-building loop of `_load_changed_files`. -/
def changedFold (pre : String) (summary : ChangeSummary) (is_file : String → Bool)
    (acc : List (String × String)) : List String → List (String × String)
  | [] => acc
  | q :: t =>
    match changed_file_step pre summary is_file q with
    | none => changedFold pre summary is_file acc t
    | some kv => changedFold pre summary is_file (insertAssoc acc kv.1 kv.2) t

/-- Embeds `_load_changed_files` (`diagram.py` lines 243-298).  Returns `none`
when the current manifest is missing, no previous manifest is found, either
manifest is unreadable, or `source_dir.relative_to(root)` raises; returns
`some []` when the change summary is empty; otherwise builds the dict of
rebased changed paths to status strings. -/
def load_changed_files (current_manifest_is_file : Bool)
    (previous_manifest : Option (Option (List (String × ManifestEntry))))
    (current_entries : Option (List (String × ManifestEntry)))
    (relative_source : Option String)
    (is_file : String → Bool) : Option (List (String × String)) :=
  if current_manifest_is_file = false then none
  else
    match previous_manifest with
    | none => none
    | some prevRead =>
      match current_entries, prevRead with
      | some curE, some prevE =>
        let summary := summarize_changes prevE curE
        let changed := summary.added ++ summary.modified ++ summary.deleted
        if changed = [] then some []
        else
          match relative_source with
          | none => none
          | some rel =>
            some (changed.foldl (fun acc q =>
              match changed_file_step (sourceRel rel) summary is_file q with
              | none => acc
              | some kv => insertAssoc acc kv.1 kv.2) [])
      | _, _ => none

/-- Embeds `_load_all_files` (`diagram.py` lines 212-240).  `entries` is the
parsed `files` mapping of the current manifest (`none` models a missing
manifest file, a read/parse failure, or a non-dict `files` value);
`relative_source` models `source_dir.relative_to(root)`.  The Python set
comprehension is modelled as the list of stripped keys. -/
def load_all_files (entries : Option (List (String × ManifestEntry)))
    (relative_source : Option String) : Option (List String) :=
  match entries with
  | none => none
  | some es =>
    match relative_source with
    | none => none
    | some rel =>
      if rel = "" ∨ rel = "." then some (manifestKeys es)
      else
        let pre := stripTrailingSlashes rel ++ "/"
        some (((manifestKeys es).filter (fun k => strStartsWith k pre)).map
          (fun k => strDropChars k pre.length))

/-! ## IncrementalOrchestrator decision rule, modelled from the spec -/

/-- The orchestrator's regeneration plan (spec §4.4). -/
inductive RegenerationPlan where
  | full
  | incremental (changed : List String)
  | noWork
deriving DecidableEq, Repr

/-- Modelled from the spec: the IncrementalOrchestrator decision rule of the
`cli` run path, which is not under the provided source tree.  Spec §4.4: if no
prior manifest is found (including an unreadable one, which
`find_previous`/§4.2 treats as absent), always full regeneration; if the
ChangeSet is empty, signal "no work"; otherwise partial regeneration over the
changed paths. -/
def plan (previous : Option (List (String × ManifestEntry)))
    (current : List (String × ManifestEntry)) : RegenerationPlan :=
  match previous with
  | none => .full
  | some prevE =>
    let s := summarize_changes prevE current
    if s.added = [] ∧ s.modified = [] ∧ s.deleted = [] then .noWork
    else .incremental (s.added ++ s.modified ++ s.deleted)

/-- Modelled from the spec: on the "no work" outcome callers must not persist
a new manifest or create run artifacts (spec §4.4, §8 idempotence). -/
def persists_new_manifest : RegenerationPlan → Bool
  | .noWork => false
  | _ => true

/-! ## Overview generation orchestration boundaries (`diagram.py`)

The external text-generation call and the d2 renderer are represented by
their outcomes; the embedded functions return the function result together
with whether `overview.json` was written during that invocation. -/

/-- Embeds the decision structure of `_update_overview_diagram` (lines
112-162): the `_load_changed_files` result gates the whole update (both
`None` and an empty dict skip it), a failing `update_overview_schema` call is
caught and yields no artifact, and the returned path requires `overview.d2`
to exist afterwards.  The second component records whether the new overview
schema was written to this run's directory. -/
def update_overview_decision (allowed_files : Option (List (String × String)))
    (schema_result : Except String String) (overview_is_file : Bool) :
    Option String × Bool :=
  match allowed_files with
  | none => (none, false)
  | some [] => (none, false)
  | some _ =>
    match schema_result with
    | .error _ => (none, false)
    | .ok _ => (if overview_is_file then some "overview.d2" else none, true)

/-- Embeds the decision structure of `_generate_overview_diagram` (lines
72-109): a failing `generate_overview_schema` call is caught and yields no
artifact; otherwise the schema is written and the path is returned when
`overview.d2` exists. -/
def generate_overview_decision (schema_result : Except String String)
    (overview_is_file : Bool) : Option String × Bool :=
  match schema_result with
  | .error _ => (none, false)
  | .ok _ => (if overview_is_file then some "overview.d2" else none, true)

/-- Outcome of invoking the external d2 CLI inside `_render_to_png`. -/
inductive D2Outcome where
  | binMissing
  | launchFailure (msg : String)
  | finished (returncode : Int) (stdout stderr : String)
deriving DecidableEq, Repr

/-- Embeds `_render_to_png` (lines 421-448): a missing binary, an exception
while launching or communicating with the process, or a non-zero exit code
all yield `none`; success yields the output path. -/
def render_to_png (outcome : D2Outcome) (output_path : String) : Option String :=
  match outcome with
  | .binMissing => none
  | .launchFailure _ => none
  | .finished rc _ _ => if rc ≠ 0 then none else some output_path

/-! ## Embedding of `combine_src_files` (`diagram.py` lines 165-209)

The walk of the source directory is supplied as the sorted list of regular
files, each as (relative posix path, text lines); reading and the encoding
fallback are abstracted by supplying the lines.  The output is modelled as
the list of emitted lines before the final newline join. -/

/-- Split a code-point list on a separator, Python `str.split(sep)` shape. -/
def splitOnChar (sep : Char) : List Char → List (List Char)
  | [] => [[]]
  | c :: t =>
    let r := splitOnChar sep t
    if c = sep then [] :: r
    else
      match r with
      | [] => [[c]]
      | seg :: rest => (c :: seg) :: rest

/-- Python `any(part.startswith(".") for part in rel_path.parts)`. -/
def hasHiddenPart (rel : String) : Bool :=
  (splitOnChar '/' rel.data).any (fun seg => seg.take 1 = ['.'])

/-- Python `dict.get` on a string-to-string mapping. -/
def assocGet : List (String × String) → String → Option String
  | [], _ => none
  | p :: t, k => if p.1 = k then some p.2 else assocGet t k

/-- The numbered content lines `[i] line`, `i` counted from 1. -/
def numberLines (lines : List String) : List String :=
  ((List.range lines.length).zip lines).map
    (fun p => "[" ++ toString (p.1 + 1) ++ "] " ++ p.2)

/-- Embeds `combine_src_files`: files not in `allowed_files` (when given) are
skipped, hidden paths are skipped, each kept file contributes a
`### FILE: <path> (<status>)` header plus numbered lines plus a blank line,
and when `allowed_files` is a non-empty dict each deleted path contributes a
`### FILE: <path> (deleted)` header plus a blank line, in sorted order. -/
def combine_src_files (files : List (String × List String))
    (allowed_files : Option (List (String × String))) : List String :=
  let base := files.foldl (fun parts f =>
    if allowed_files.isSome ∧ assocGet (allowed_files.getD []) f.1 = none then parts
    else if hasHiddenPart f.1 then parts
    else
      let status := match allowed_files with
        | some m => assocGet m f.1
        | none => none
      let label := match status with
        | some st => " (" ++ st ++ ")"
        | none => ""
      parts ++ ["### FILE: " ++ f.1 ++ label] ++ numberLines f.2 ++ [""]) []
  match allowed_files with
  | none => base
  | some m =>
    if m = [] then base
    else
      base ++ (sortStrings ((m.filter (fun p => p.2 = "deleted")).map (fun p => p.1))).foldl
        (fun ps p => ps ++ ["### FILE: " ++ p ++ " (deleted)", ""]) []

/-! ## Embedding of the per-node artifact reuse
(`_prepare_node_diagram_inputs` and `_reuse_previous_node_diagram`,
`diagram.py` lines 341-397)

The previous run directory's contents and `shutil.copy2` outcomes are
oracles indexed by node id and file suffix. -/

/-- One node of the overview schema, as consumed by the engine: its id
(`""` models a missing or falsy `node.get("id")`) and its status string. -/
structure SchemaNode where
  id : String
  status : String
deriving DecidableEq, Repr

/-- The ids collected at lines 357-361: nodes whose status is `"unchanged"`
and whose id is truthy. -/
def node_unchanged_ids (nodes : List SchemaNode) : List String :=
  (nodes.filter (fun n => n.status = "unchanged" ∧ n.id ≠ "")).map (fun n => n.id)

/-- Embeds `_reuse_previous_node_diagram`: for each suffix in `("json", "d2")`
the file `previous_run_dir/<id>.<suffix>` is copied when present; any copy
exception is swallowed; the result is whether at least one copy succeeded. -/
def reuse_previous_node_diagram (src_is_file copy_ok : String → String → Bool)
    (node_id : String) : Bool :=
  ["json", "d2"].foldl (fun copied suffix =>
    if src_is_file node_id suffix = false then copied
    else if copy_ok node_id suffix then true
    else copied) false

/-- Embeds `_prepare_node_diagram_inputs`: `none` for no previous run
directory, unparseable schema, or no unchanged node (all meaning "regenerate
everything" downstream); otherwise the set of node ids needing regeneration,
built in node order. -/
def prepare_node_diagram_inputs (has_previous_run_dir : Bool)
    (nodes : Option (List SchemaNode))
    (src_is_file copy_ok : String → String → Bool) : Option (List String) :=
  if has_previous_run_dir = false then none
  else
    match nodes with
    | none => none
    | some ns =>
      let unchanged := node_unchanged_ids ns
      if unchanged = [] then none
      else
        some (ns.foldl (fun acc n =>
          if n.id = "" then acc
          else if n.id ∉ unchanged then acc ++ [n.id]
          else if reuse_previous_node_diagram src_is_file copy_ok n.id = false then
            acc ++ [n.id]
          else acc) [])

/-- The per-node decision inside the loop of `_prepare_node_diagram_inputs`
(lines 366-374), as a partial map: the id to add to the regeneration set, or
`none` when the node is skipped (falsy id) or successfully reused. -/
def node_regen_step (unchanged : List String)
    (src_is_file copy_ok : String → String → Bool) (n : SchemaNode) :
    Option String :=
  if n.id = "" then none
  else if n.id ∉ unchanged then some n.id
  else if reuse_previous_node_diagram src_is_file copy_ok n.id = false then some n.id
  else none

/-- Modelled from the spec (§4.5) and `_start_node_diagrams` lines 316-325:
`include_node_ids = None` makes the downstream generator regenerate every
node, while an explicit set restricts regeneration to exactly that set. -/
def effective_regen_set (r : Option (List String)) (nodes : List SchemaNode) :
    List String :=
  match r with
  | none => (nodes.filter (fun n => n.id ≠ "")).map (fun n => n.id)
  | some l => l

/-! ## Embedding of `unslop_dir_management.py` -/

/-- The decimal digit character for `n % 10`. -/
def natDigitChar (n : Nat) : Char :=
  match n % 10 with
  | 0 => '0' | 1 => '1' | 2 => '2' | 3 => '3' | 4 => '4'
  | 5 => '5' | 6 => '6' | 7 => '7' | 8 => '8' | _ => '9'

/-- Decimal digits of `n`, most significant first. -/
def decChars (n : Nat) : List Char :=
  if _h : n < 10 then [natDigitChar n]
  else decChars (n / 10) ++ [natDigitChar n]
termination_by n
decreasing_by
  exact Nat.div_lt_self (by omega) (by omega)

/-- Zero-padded decimal rendering to width `w`, Python `f"{n:0wd}"` and the
zero-padded `strftime` fields. -/
def padDigits (w n : Nat) : List Char :=
  List.replicate (w - (decChars n).length) '0' ++ decChars n

/-- Embeds the name built by `create_run_dir`:
`datetime.now(timezone.utc).strftime("%Y%m%dT%H%M%SZ")` followed by
`f"-{suffix:04d}"` with `suffix = secrets.randbelow(10000)`, as a function of
the UTC time fields and the random suffix. -/
def run_dir_name (y mo d h mi s suffix : Nat) : String :=
  ⟨padDigits 4 y ++ padDigits 2 mo ++ padDigits 2 d ++ ['T'] ++ padDigits 2 h ++
    padDigits 2 mi ++ padDigits 2 s ++ ['Z', '-'] ++ padDigits 4 suffix⟩

/-- Consume exactly `n` decimal digits from the front, or fail. -/
def expectDigits : Nat → List Char → Option (List Char)
  | 0, l => some l
  | _ + 1, [] => none
  | n + 1, c :: l => if c.isDigit then expectDigits n l else none

/-- Consume one expected literal character from the front, or fail. -/
def expectChar (c : Char) : List Char → Option (List Char)
  | [] => none
  | c' :: l => if c' = c then some l else none

/-- The anchored regular expression `_RUN_DIR_RE`, i.e.
`^\d{8}T\d{6}Z-\d{4}$`, as a structural matcher: eight digits, `T`, six
digits, `Z`, `-`, four digits, end of string. -/
def run_dir_name_matches (s : String) : Bool :=
  match ((((((expectDigits 8 s.data).bind (expectChar 'T')).bind
      (expectDigits 6)).bind (expectChar 'Z')).bind (expectChar '-')).bind
      (expectDigits 4)) with
  | some [] => true
  | _ => false

/-- Embeds `list_run_dirs`: when `.unslop` is not a directory the result is
empty; otherwise the children (given as (name, is_dir) pairs) that are
directories with a matching name, sorted ascending by name. -/
def list_run_dirs (unslop_is_dir : Bool) (entries : List (String × Bool)) :
    List String :=
  if unslop_is_dir = false then []
  else sortStrings ((entries.filter
    (fun e => e.2 && run_dir_name_matches e.1)).map (fun e => e.1))

/-- Embeds `latest_run_dir`: `runs[-1] if runs else None`. -/
def latest_run_dir (unslop_is_dir : Bool) (entries : List (String × Bool)) :
    Option String :=
  (list_run_dirs unslop_is_dir entries).getLast?

/-! ## Filesystem state model for `ensure_unslop_dir` and the first run -/

/-- A filesystem entry: a regular file with content, or a directory. -/
inductive FsNode where
  | file (content : String)
  | dir
deriving DecidableEq, Repr

/-- First-match lookup of a path in the filesystem association list. -/
def fsLookup : List (String × FsNode) → String → Option FsNode
  | [], _ => none
  | (p, n) :: t, q => if p = q then some n else fsLookup t q

/-- `Path.unlink`: remove all entries at the path. -/
def fsRemove (s : List (String × FsNode)) (p : String) : List (String × FsNode) :=
  s.filter (fun e => e.1 ≠ p)

/-- Create or overwrite the entry at a path. -/
def fsInsert (s : List (String × FsNode)) (p : String) (n : FsNode) :
    List (String × FsNode) :=
  fsRemove s p ++ [(p, n)]

/-- The unlink step of `ensure_unslop_dir` (`unslop_dir_management.py` lines
16-17): an existing non-directory at `root/.unslop` is removed. -/
def ensure_unslop_unlink (s : List (String × FsNode)) (root : String) :
    List (String × FsNode) :=
  if (fsLookup s (root ++ "/.unslop")).isSome ∧
      fsLookup s (root ++ "/.unslop") ≠ some .dir
  then fsRemove s (root ++ "/.unslop") else s

/-- Embeds `ensure_unslop_dir` (`unslop_dir_management.py` lines 13-19): an
existing non-directory at `root/.unslop` is unlinked, then the directory is
created with `exist_ok=True`. -/
def ensure_unslop_dir (s : List (String × FsNode)) (root : String) :
    List (String × FsNode) :=
  if (fsLookup (ensure_unslop_unlink s root) (root ++ "/.unslop")).isSome
  then ensure_unslop_unlink s root
  else fsInsert (ensure_unslop_unlink s root) (root ++ "/.unslop") .dir

/-- Modelled from the spec: the first-run flow of the cli `run` command (the
`cli` module is not under the provided source tree).  It ensures the state
root, creates the `manifest` area inside it, and persists the newly computed
manifest as `manifest-<run id>.json` (spec §4.2, §8 legacy-marker scenario,
`tests/test_cli.py::test_run_converts_existing_marker_file`). -/
def first_run_persist (s : List (String × FsNode))
    (root run_id manifest_content : String) : List (String × FsNode) :=
  fsInsert
    (if (fsLookup (ensure_unslop_dir s root) (root ++ "/.unslop/manifest")).isSome
     then ensure_unslop_dir s root
     else fsInsert (ensure_unslop_dir s root) (root ++ "/.unslop/manifest") .dir)
    (root ++ "/.unslop/manifest" ++ "/manifest-" ++ run_id ++ ".json")
    (.file manifest_content)

/-! ## Theorems: string helpers -/

theorem strStartsWith_iff (s p : String) :
    strStartsWith s p = true ↔ ∃ t, s.data = p.data ++ t := by
  unfold strStartsWith
  constructor
  · intro h
    have h' := List.isPrefixOf_iff_prefix.mp h
    rcases h' with ⟨t, ht⟩
    exact ⟨t, ht.symm⟩
  · rintro ⟨t, ht⟩
    exact List.isPrefixOf_iff_prefix.mpr ⟨t, ht.symm⟩

theorem strDropChars_of_startsWith (s p : String) (h : strStartsWith s p = true) :
    p ++ strDropChars s p.length = s := by
  rcases (strStartsWith_iff s p).mp h with ⟨t, ht⟩
  cases s with
  | mk sd =>
    cases p with
    | mk pd =>
      simp only at ht
      subst ht
      show String.mk (pd ++ List.drop pd.length (pd ++ t)) = String.mk (pd ++ t)
      rw [List.drop_left]

/-- Rebasing by a fixed non-empty leading segment is injective on strings that
carry that segment. -/
theorem strDropChars_inj (p a b : String)
    (ha : strStartsWith a p = true) (hb : strStartsWith b p = true)
    (h : strDropChars a p.length = strDropChars b p.length) : a = b := by
  have h1 := strDropChars_of_startsWith a p ha
  have h2 := strDropChars_of_startsWith b p hb
  rw [← h1, ← h2, h]

/-! ## Theorems: manifest lookups and the diff -/

theorem lookupEntry_isSome_iff_mem (m : List (String × ManifestEntry)) (k : String) :
    (lookupEntry m k).isSome = true ↔ k ∈ manifestKeys m := by
  induction m with
  | nil => simp [lookupEntry, manifestKeys]
  | cons p t ih =>
    obtain ⟨a, e⟩ := p
    by_cases hak : a = k
    · subst hak
      simp [lookupEntry, manifestKeys]
    · simp only [lookupEntry, if_neg hak, manifestKeys, List.map_cons, List.mem_cons]
      rw [ih]
      constructor
      · intro h; exact Or.inr h
      · rintro (h | h)
        · exact absurd h.symm hak
        · exact h

theorem lookupEntry_eq_none_iff (m : List (String × ManifestEntry)) (k : String) :
    lookupEntry m k = none ↔ k ∉ manifestKeys m := by
  rw [← lookupEntry_isSome_iff_mem]
  cases lookupEntry m k <;> simp

theorem mem_manifestKeys_of_lookupEntry (m : List (String × ManifestEntry))
    (k : String) (e : ManifestEntry) (h : lookupEntry m k = some e) :
    k ∈ manifestKeys m := by
  rw [← lookupEntry_isSome_iff_mem, h]
  rfl

theorem mem_added_iff (P C : List (String × ManifestEntry)) (k : String) :
    k ∈ (summarize_changes P C).added ↔ k ∈ manifestKeys C ∧ k ∉ manifestKeys P := by
  simp only [summarize_changes, List.mem_filter, Option.isNone_iff_eq_none,
    decide_eq_true_eq, lookupEntry_eq_none_iff]

theorem mem_deleted_iff (P C : List (String × ManifestEntry)) (k : String) :
    k ∈ (summarize_changes P C).deleted ↔ k ∈ manifestKeys P ∧ k ∉ manifestKeys C := by
  simp only [summarize_changes, List.mem_filter, Option.isNone_iff_eq_none,
    decide_eq_true_eq, lookupEntry_eq_none_iff]

theorem mem_modified_iff (P C : List (String × ManifestEntry)) (k : String) :
    k ∈ (summarize_changes P C).modified ↔
      ∃ ep ec, lookupEntry P k = some ep ∧ lookupEntry C k = some ec ∧
        ep.hash ≠ ec.hash := by
  simp only [summarize_changes, List.mem_filter]
  constructor
  · rintro ⟨hmem, hmatch⟩
    rcases hp : lookupEntry P k with _ | ep
    · rw [hp] at hmatch; simp at hmatch
    · rcases hc : lookupEntry C k with _ | ec
      · rw [hp, hc] at hmatch; simp at hmatch
      · rw [hp, hc] at hmatch
        simp only [decide_eq_true_eq] at hmatch
        exact ⟨ep, ec, rfl, rfl, hmatch⟩
  · rintro ⟨ep, ec, hp, hc, hne⟩
    refine ⟨mem_manifestKeys_of_lookupEntry C k ec hc, ?_⟩
    rw [hp, hc]
    simpa using hne

/-- Claim C3: the manifest diff computes `added = keys(current) −
keys(previous)`, `deleted = keys(previous) − keys(current)`, marks a key
present in both manifests as modified iff the two content hashes differ (size
and mtime never influence the result), the three output lists are pairwise
disjoint, and an unchanged key (present in both with equal hash) appears in
none of them. -/
theorem summarize_changes_diff_correct
    (P C : List (String × ManifestEntry)) (k : String) :
    (k ∈ (summarize_changes P C).added ↔ k ∈ manifestKeys C ∧ k ∉ manifestKeys P)
  ∧ (k ∈ (summarize_changes P C).deleted ↔ k ∈ manifestKeys P ∧ k ∉ manifestKeys C)
  ∧ (k ∈ (summarize_changes P C).modified ↔
      ∃ ep ec, lookupEntry P k = some ep ∧ lookupEntry C k = some ec ∧
        ep.hash ≠ ec.hash)
  ∧ ¬ (k ∈ (summarize_changes P C).added ∧ k ∈ (summarize_changes P C).modified)
  ∧ ¬ (k ∈ (summarize_changes P C).added ∧ k ∈ (summarize_changes P C).deleted)
  ∧ ¬ (k ∈ (summarize_changes P C).modified ∧ k ∈ (summarize_changes P C).deleted)
  ∧ (∀ ep ec, lookupEntry P k = some ep → lookupEntry C k = some ec →
      ep.hash = ec.hash →
      k ∉ (summarize_changes P C).added ∧ k ∉ (summarize_changes P C).modified ∧
        k ∉ (summarize_changes P C).deleted) := by
  refine ⟨mem_added_iff P C k, mem_deleted_iff P C k, mem_modified_iff P C k, ?_, ?_, ?_, ?_⟩
  · rintro ⟨ha, hm⟩
    rcases (mem_modified_iff P C k).mp hm with ⟨ep, ec, hp, _, _⟩
    exact ((mem_added_iff P C k).mp ha).2 (mem_manifestKeys_of_lookupEntry P k ep hp)
  · rintro ⟨ha, hd⟩
    exact ((mem_added_iff P C k).mp ha).2 ((mem_deleted_iff P C k).mp hd).1
  · rintro ⟨hm, hd⟩
    rcases (mem_modified_iff P C k).mp hm with ⟨ep, ec, _, hc, _⟩
    exact ((mem_deleted_iff P C k).mp hd).2 (mem_manifestKeys_of_lookupEntry C k ec hc)
  · intro ep ec hp hc hhash
    refine ⟨?_, ?_, ?_⟩
    · intro ha
      exact ((mem_added_iff P C k).mp ha).2 (mem_manifestKeys_of_lookupEntry P k ep hp)
    · intro hm
      rcases (mem_modified_iff P C k).mp hm with ⟨ep', ec', hp', hc', hne⟩
      rw [hp] at hp'
      rw [hc] at hc'
      cases hp'
      cases hc'
      exact hne hhash
    · intro hd
      exact ((mem_deleted_iff P C k).mp hd).2 (mem_manifestKeys_of_lookupEntry C k ec hc)

/-- Witness for C3 at a concrete pair of manifests: a key present in both with
differing hashes is modified (and in neither added nor deleted), evaluated via
the claim theorem. -/
theorem summarize_changes_diff_correct_witness :
    "a" ∈ (summarize_changes
        [("a", ⟨"h1", 5, 10⟩)] [("a", ⟨"h2", 5, 10⟩)]).modified ∧
    "a" ∉ (summarize_changes
        [("a", ⟨"h1", 5, 10⟩)] [("a", ⟨"h2", 5, 10⟩)]).added := by
  have h := summarize_changes_diff_correct
    [("a", ⟨"h1", 5, 10⟩)] [("a", ⟨"h2", 5, 10⟩)] "a"
  constructor
  · exact h.2.2.1.mpr ⟨⟨"h1", 5, 10⟩, ⟨"h2", 5, 10⟩, by decide, by decide, by decide⟩
  · intro ha
    exact ((h.1).mp ha).2 (by decide)

/-! ## Theorems: the `_load_changed_files` loop -/

theorem mem_insertAssoc (m : List (String × String)) (k v : String)
    (kv : String × String) (h : kv ∈ insertAssoc m k v) : kv ∈ m ∨ kv = (k, v) := by
  unfold insertAssoc at h
  split at h
  · rcases List.mem_map.mp h with ⟨p, hp, heq⟩
    by_cases hpk : p.1 = k
    · rw [if_pos hpk] at heq
      exact Or.inr heq.symm
    · rw [if_neg hpk] at heq
      exact Or.inl (heq ▸ hp)
  · rcases List.mem_append.mp h with h' | h'
    · exact Or.inl h'
    · simp only [List.mem_singleton] at h'
      exact Or.inr h'

theorem insertAssoc_eq_append (m : List (String × String)) (k v : String)
    (h : ∀ p ∈ m, p.1 ≠ k) : insertAssoc m k v = m ++ [(k, v)] := by
  unfold insertAssoc
  rw [if_neg]
  simp only [List.any_eq_true, decide_eq_true_eq, not_exists]
  intro p
  intro hcontra
  exact h p hcontra.1 hcontra.2

theorem foldl_eq_changedFold (pre : String) (summary : ChangeSummary)
    (is_file : String → Bool) (l : List String) (acc : List (String × String)) :
    l.foldl (fun acc q => match changed_file_step pre summary is_file q with
      | none => acc
      | some kv => insertAssoc acc kv.1 kv.2) acc
    = changedFold pre summary is_file acc l := by
  induction l generalizing acc with
  | nil => rfl
  | cons q t ih =>
    rw [List.foldl_cons, changedFold]
    cases hstep : changed_file_step pre summary is_file q <;> simp only [hstep, ih]

theorem changedFold_eq_append (pre : String) (summary : ChangeSummary)
    (is_file : String → Bool) (l : List String) (acc : List (String × String))
    (hnd : ((l.filterMap (changed_file_step pre summary is_file)).map
      (fun kv => kv.1)).Nodup)
    (hdisj : ∀ kv ∈ l.filterMap (changed_file_step pre summary is_file),
      ∀ p ∈ acc, p.1 ≠ kv.1) :
    changedFold pre summary is_file acc l
      = acc ++ l.filterMap (changed_file_step pre summary is_file) := by
  induction l generalizing acc with
  | nil => simp [changedFold]
  | cons q t ih =>
    rw [changedFold]
    cases hstep : changed_file_step pre summary is_file q with
    | none =>
      rw [List.filterMap_cons_none hstep] at hnd hdisj ⊢
      exact ih acc hnd hdisj
    | some kv =>
      rw [List.filterMap_cons_some hstep] at hnd hdisj ⊢
      have hfresh : ∀ p ∈ acc, p.1 ≠ kv.1 :=
        fun p hp => hdisj kv (List.mem_cons_self kv _) p hp
      show changedFold pre summary is_file (insertAssoc acc kv.1 kv.2) t
        = acc ++ kv :: List.filterMap (changed_file_step pre summary is_file) t
      rw [insertAssoc_eq_append acc kv.1 kv.2 hfresh]
      simp only [List.map_cons, List.nodup_cons] at hnd
      have hrec := ih (acc ++ [(kv.1, kv.2)]) hnd.2 ?_
      · rw [hrec, List.append_assoc]
        rfl
      · intro kv' hkv' p hp
        rcases List.mem_append.mp hp with hpm | hpm
        · exact hdisj kv' (List.mem_cons_of_mem kv hkv') p hpm
        · simp only [List.mem_singleton] at hpm
          subst hpm
          intro hcontra
          exact hnd.1 ((congrArg (fun x => x) hcontra) ▸ List.mem_map_of_mem _ hkv')

theorem nodup_filterMap_keys (f : String → Option (String × String)) (l : List String)
    (hinj : ∀ a b kva kvb, f a = some kva → f b = some kvb → kva.1 = kvb.1 → a = b)
    (hl : l.Nodup) : ((l.filterMap f).map (fun kv => kv.1)).Nodup := by
  induction l with
  | nil => simp
  | cons a t ih =>
    rcases List.nodup_cons.mp hl with ⟨hat, ht⟩
    cases hfa : f a with
    | none => rw [List.filterMap_cons_none hfa]; exact ih ht
    | some kv =>
      rw [List.filterMap_cons_some hfa, List.map_cons, List.nodup_cons]
      refine ⟨?_, ih ht⟩
      intro hmem
      rcases List.mem_map.mp hmem with ⟨kv', hkv', hk⟩
      rcases List.mem_filterMap.mp hkv' with ⟨b, hb, hfb⟩
      exact hat ((hinj a b kv kv' hfa hfb hk.symm) ▸ hb)

theorem changed_file_step_eq (pre : String) (s : ChangeSummary)
    (isf : String → Bool) (q : String) :
    changed_file_step pre s isf q =
      if pre ≠ "" ∧ strStartsWith q pre = false then none
      else changed_file_core pre s isf q := rfl

theorem changed_file_core_key (pre : String) (s : ChangeSummary)
    (isf : String → Bool) (q : String) (kv : String × String)
    (h : changed_file_core pre s isf q = some kv) :
    kv.1 = rebase pre q ∧ rebase pre q ≠ "" := by
  unfold changed_file_core at h
  by_cases h0 : rebase pre q = ""
  · rw [if_pos h0] at h; exact absurd h (by simp)
  · rw [if_neg h0] at h
    refine ⟨?_, h0⟩
    by_cases h1 : rebase pre q ∈ s.deleted
    · rw [if_pos h1] at h
      injection h with h'
      subst h'
      rfl
    · rw [if_neg h1] at h
      by_cases h2 : isf (rebase pre q) = false
      · rw [if_pos h2] at h; exact absurd h (by simp)
      · rw [if_neg h2] at h
        by_cases h3 : rebase pre q ∈ s.added
        · rw [if_pos h3] at h
          injection h with h'
          subst h'
          rfl
        · rw [if_neg h3] at h
          injection h with h'
          subst h'
          rfl

theorem changed_file_step_some_key (pre : String) (s : ChangeSummary)
    (isf : String → Bool) (q : String) (kv : String × String)
    (h : changed_file_step pre s isf q = some kv) :
    kv.1 = rebase pre q ∧ rebase pre q ≠ "" ∧
      (pre ≠ "" → strStartsWith q pre = true) := by
  rw [changed_file_step_eq] at h
  by_cases hout : pre ≠ "" ∧ strStartsWith q pre = false
  · rw [if_pos hout] at h; exact absurd h (by simp)
  · rw [if_neg hout] at h
    have hk := changed_file_core_key pre s isf q kv h
    refine ⟨hk.1, hk.2, ?_⟩
    intro hpre
    by_contra hsw
    exact hout ⟨hpre, by simpa using hsw⟩

theorem changed_file_step_key_inj (pre : String) (s : ChangeSummary)
    (isf : String → Bool) (a b : String) (kva kvb : String × String)
    (ha : changed_file_step pre s isf a = some kva)
    (hb : changed_file_step pre s isf b = some kvb)
    (hk : kva.1 = kvb.1) : a = b := by
  have hka := changed_file_step_some_key pre s isf a kva ha
  have hkb := changed_file_step_some_key pre s isf b kvb hb
  by_cases hpre : pre = ""
  · subst hpre
    simp only [rebase, ne_eq, not_true_eq_false, if_false] at hka hkb
    rw [← hka.1, ← hkb.1, hk]
  · have hswa := hka.2.2 hpre
    have hswb := hkb.2.2 hpre
    have e1 : strDropChars a pre.length = strDropChars b pre.length := by
      have ea := hka.1
      have eb := hkb.1
      simp only [rebase, if_pos hpre] at ea eb
      rw [← ea, ← eb, hk]
    exact strDropChars_inj pre a b hswa hswb e1

theorem changed_file_step_inside (pre : String) (s : ChangeSummary)
    (isf : String → Bool) (q : String)
    (hin : pre = "" ∨ strStartsWith q pre = true) :
    changed_file_step pre s isf q = changed_file_core pre s isf q := by
  rw [changed_file_step_eq, if_neg]
  rintro ⟨hpre, hsw⟩
  rcases hin with h | h
  · exact hpre h
  · rw [h] at hsw; cases hsw

theorem step_origin_unique (pre : String) (s : ChangeSummary)
    (isf : String → Bool) (q q' : String) (kv : String × String)
    (hin : pre = "" ∨ strStartsWith q pre = true)
    (hstep : changed_file_step pre s isf q' = some kv)
    (hkey : kv.1 = rebase pre q) : q' = q := by
  have hq' := changed_file_step_some_key pre s isf q' kv hstep
  by_cases hpre : pre = ""
  · subst hpre
    simp only [rebase, ne_eq, not_true_eq_false, if_false] at hq' hkey
    rw [← hq'.1, hkey]
  · have hswq : strStartsWith q pre = true := by
      rcases hin with h | h
      · exact absurd h hpre
      · exact h
    have hswq' := hq'.2.2 hpre
    have e1 : strDropChars q' pre.length = strDropChars q pre.length := by
      have e := hq'.1
      simp only [rebase, if_pos hpre] at e hkey
      rw [← e, hkey]
    exact strDropChars_inj pre q' q hswq' hswq e1

theorem changed_file_core_deleted_eq (pre : String) (s : ChangeSummary)
    (isf : String → Bool) (q : String)
    (h1 : rebase pre q ≠ "") (h2 : rebase pre q ∈ s.deleted) :
    changed_file_core pre s isf q = some (rebase pre q, "deleted") := by
  unfold changed_file_core
  rw [if_neg h1, if_pos h2]

theorem changed_file_core_missing_eq (pre : String) (s : ChangeSummary)
    (isf : String → Bool) (q : String)
    (h1 : rebase pre q ≠ "") (h2 : rebase pre q ∉ s.deleted)
    (h3 : isf (rebase pre q) = false) :
    changed_file_core pre s isf q = none := by
  unfold changed_file_core
  rw [if_neg h1, if_neg h2, if_pos h3]

theorem changed_file_core_exists_eq (pre : String) (s : ChangeSummary)
    (isf : String → Bool) (q : String)
    (h1 : rebase pre q ≠ "") (h2 : rebase pre q ∉ s.deleted)
    (h3 : isf (rebase pre q) = true) :
    ∃ v, changed_file_core pre s isf q = some (rebase pre q, v) := by
  unfold changed_file_core
  rw [if_neg h1, if_neg h2, if_neg (by simp [h3])]
  by_cases h4 : rebase pre q ∈ s.added
  · exact ⟨"added", by rw [if_pos h4]⟩
  · exact ⟨"updated", by rw [if_neg h4]⟩

theorem changed_list_nodup (P C : List (String × ManifestEntry))
    (hP : (manifestKeys P).Nodup) (hC : (manifestKeys C).Nodup) :
    ((summarize_changes P C).added ++ (summarize_changes P C).modified ++
      (summarize_changes P C).deleted).Nodup := by
  have hA : (summarize_changes P C).added.Nodup := hC.filter _
  have hM : (summarize_changes P C).modified.Nodup := hC.filter _
  have hD : (summarize_changes P C).deleted.Nodup := hP.filter _
  have hAM : (summarize_changes P C).added.Disjoint (summarize_changes P C).modified := by
    intro x ha hm
    rcases (mem_modified_iff P C x).mp hm with ⟨ep, ec, hp, _, _⟩
    exact ((mem_added_iff P C x).mp ha).2 (mem_manifestKeys_of_lookupEntry P x ep hp)
  have hAD : (summarize_changes P C).added.Disjoint (summarize_changes P C).deleted := by
    intro x ha hd
    exact ((mem_added_iff P C x).mp ha).2 ((mem_deleted_iff P C x).mp hd).1
  have hMD : (summarize_changes P C).modified.Disjoint (summarize_changes P C).deleted := by
    intro x hm hd
    rcases (mem_modified_iff P C x).mp hm with ⟨ep, ec, _, hc, _⟩
    exact ((mem_deleted_iff P C x).mp hd).2 (mem_manifestKeys_of_lookupEntry C x ec hc)
  refine List.nodup_append.mpr ⟨List.nodup_append.mpr ⟨hA, hM, hAM⟩, hD, ?_⟩
  intro x hx hd
  rcases List.mem_append.mp hx with hx' | hx'
  · exact hAD hx' hd
  · exact hMD hx' hd

theorem load_changed_files_eq_filterMap (prevE curE : List (String × ManifestEntry))
    (rel : String) (isf : String → Bool)
    (hP : (manifestKeys prevE).Nodup) (hC : (manifestKeys curE).Nodup) :
    load_changed_files true (some (some prevE)) (some curE) (some rel) isf
      = some (((summarize_changes prevE curE).added ++
          (summarize_changes prevE curE).modified ++
          (summarize_changes prevE curE).deleted).filterMap
            (changed_file_step (sourceRel rel) (summarize_changes prevE curE) isf)) := by
  by_cases hch : (summarize_changes prevE curE).added ++
      (summarize_changes prevE curE).modified ++
      (summarize_changes prevE curE).deleted = []
  · rw [hch]
    simp [load_changed_files, hch]
  · have hnd := changed_list_nodup prevE curE hP hC
    have hndk := nodup_filterMap_keys
      (changed_file_step (sourceRel rel) (summarize_changes prevE curE) isf) _
      (fun a b kva kvb ha hb hk =>
        changed_file_step_key_inj (sourceRel rel) (summarize_changes prevE curE)
          isf a b kva kvb ha hb hk) hnd
    have hdisj : ∀ kv ∈ ((summarize_changes prevE curE).added ++
        (summarize_changes prevE curE).modified ++
        (summarize_changes prevE curE).deleted).filterMap
          (changed_file_step (sourceRel rel) (summarize_changes prevE curE) isf),
        ∀ p ∈ ([] : List (String × String)), p.1 ≠ kv.1 := by
      intro kv _ p hp
      cases hp
    have happ := changedFold_eq_append (sourceRel rel) (summarize_changes prevE curE)
      isf ((summarize_changes prevE curE).added ++
        (summarize_changes prevE curE).modified ++
        (summarize_changes prevE curE).deleted) [] hndk hdisj
    have hfold := foldl_eq_changedFold (sourceRel rel) (summarize_changes prevE curE)
      isf ((summarize_changes prevE curE).added ++
        (summarize_changes prevE curE).modified ++
        (summarize_changes prevE curE).deleted) []
    simp only [load_changed_files, Bool.true_eq_false, if_false, if_neg hch]
    rw [hfold, happ]
    rfl

theorem strData_append (a b : String) : (a ++ b).data = a.data ++ b.data := by
  cases a
  cases b
  rfl

theorem strEmpty_append (s : String) : "" ++ s = s := by
  cases s
  rfl

theorem rebase_empty (q : String) : rebase "" q = q := by
  simp [rebase]

/-- Claim C5: when the regeneration target is a sub-directory of the project
root, every entry of the changed-file mapping is the rebased form of a
changed path lying under that sub-directory (so changed paths outside the
sub-directory contribute nothing), the per-path loop discards any path
outside the sub-directory, and when `source_dir.relative_to(root)` fails the
update helper returns `none` — the same "no usable prior state" signal as a
missing prior manifest — which the orchestrator (modelled from the spec, the
cli layer being outside the provided tree) resolves to full regeneration
rather than including foreign paths. -/
theorem load_changed_files_rebases_and_fails_closed :
    (∀ prevE curE isf,
      (summarize_changes prevE curE).added ++ (summarize_changes prevE curE).modified ++
        (summarize_changes prevE curE).deleted ≠ [] →
      load_changed_files true (some (some prevE)) (some curE) none isf = none)
  ∧ (∀ pre s isf q, pre ≠ "" → strStartsWith q pre = false →
      changed_file_step pre s isf q = none)
  ∧ (∀ prevE curE rel isf m kv,
      (manifestKeys prevE).Nodup → (manifestKeys curE).Nodup →
      load_changed_files true (some (some prevE)) (some curE) (some rel) isf = some m →
      kv ∈ m →
      kv.1 ≠ "" ∧ strStartsWith (sourceRel rel ++ kv.1) (sourceRel rel) = true ∧
        sourceRel rel ++ kv.1 ∈
          (summarize_changes prevE curE).added ++ (summarize_changes prevE curE).modified ++
            (summarize_changes prevE curE).deleted)
  ∧ (∀ cur, plan none cur = RegenerationPlan.full) := by
  refine ⟨?_, ?_, ?_, fun cur => rfl⟩
  · intro prevE curE isf h
    simp only [load_changed_files]
    simp
    intro h1 h2 h3
    exact h (by rw [h1, h2, h3]; rfl)
  · intro pre s isf q h1 h2
    rw [changed_file_step_eq, if_pos ⟨h1, h2⟩]
  · intro prevE curE rel isf m kv hP hC hload hkv
    have hfm := load_changed_files_eq_filterMap prevE curE rel isf hP hC
    rw [hload] at hfm
    have hm := Option.some_inj.mp hfm
    rw [hm] at hkv
    rcases List.mem_filterMap.mp hkv with ⟨q, hq, hstep⟩
    have hkey := changed_file_step_some_key (sourceRel rel)
      (summarize_changes prevE curE) isf q kv hstep
    have hne : kv.1 ≠ "" := by rw [hkey.1]; exact hkey.2.1
    by_cases hpre : sourceRel rel = ""
    · have hq' : sourceRel rel ++ kv.1 = q := by
        rw [hpre, strEmpty_append, hkey.1, hpre, rebase_empty]
      refine ⟨hne, ?_, hq' ▸ hq⟩
      rw [hpre]
      exact (strStartsWith_iff _ _).mpr ⟨kv.1.data, by rw [strData_append]⟩
    · have hsw := hkey.2.2 hpre
      have hq' : sourceRel rel ++ kv.1 = q := by
        rw [hkey.1]
        simp only [rebase, if_pos hpre]
        exact strDropChars_of_startsWith q (sourceRel rel) hsw
      refine ⟨hne, ?_, hq' ▸ hq⟩
      rw [hq']
      exact hsw

/-- Witness for C5 at concrete inputs: a failing relativization yields the
"no usable prior state" signal, and a modified path under the `src`
sub-directory appears rebased in the mapping with its original inside the
changed set. -/
theorem load_changed_files_rebases_witness :
    load_changed_files true (some (some [("src/a.py", ⟨"h1", 1, 0⟩)]))
      (some [("src/a.py", ⟨"h2", 1, 0⟩)]) none (fun _ => true) = none ∧
    ("a.py" : String) ≠ "" ∧
    sourceRel "src" ++ "a.py" ∈
      (summarize_changes [("src/a.py", ⟨"h1", 1, 0⟩)] [("src/a.py", ⟨"h2", 1, 0⟩)]).added ++
        (summarize_changes [("src/a.py", ⟨"h1", 1, 0⟩)] [("src/a.py", ⟨"h2", 1, 0⟩)]).modified ++
        (summarize_changes [("src/a.py", ⟨"h1", 1, 0⟩)] [("src/a.py", ⟨"h2", 1, 0⟩)]).deleted := by
  have h := load_changed_files_rebases_and_fails_closed
  have h3 := h.2.2.1 [("src/a.py", ⟨"h1", 1, 0⟩)] [("src/a.py", ⟨"h2", 1, 0⟩)] "src"
    (fun _ => true) [("a.py", "updated")] ("a.py", "updated")
    (by decide) (by decide) (by decide) (by decide)
  exact ⟨h.1 _ _ _ (by decide), h3.1, h3.2.2⟩

/-- Claim C10 (amended): an added or modified path under the source
sub-directory whose rebased name is not itself listed verbatim in the deleted
set is included in the changed-file mapping iff the rebased file exists on
disk (a missing file is silently omitted); a deleted path is retained with
status `"deleted"` and no existence check exactly when its rebased form
occurs verbatim in the deleted set — always the case when the source
directory equals the root — and otherwise (under a non-empty source path,
where rebasing changes the name) it falls through to the existence check and
a missing file is dropped. -/
theorem changed_files_existence_filter
    (prevE curE : List (String × ManifestEntry)) (rel : String)
    (isf : String → Bool) (m : List (String × String))
    (hP : (manifestKeys prevE).Nodup) (hC : (manifestKeys curE).Nodup)
    (hload : load_changed_files true (some (some prevE)) (some curE) (some rel) isf
      = some m) :
    (∀ q ∈ (summarize_changes prevE curE).added ++ (summarize_changes prevE curE).modified,
      (sourceRel rel = "" ∨ strStartsWith q (sourceRel rel) = true) →
      rebase (sourceRel rel) q ≠ "" →
      rebase (sourceRel rel) q ∉ (summarize_changes prevE curE).deleted →
      ((∃ v, (rebase (sourceRel rel) q, v) ∈ m) ↔ isf (rebase (sourceRel rel) q) = true))
  ∧ (∀ q ∈ (summarize_changes prevE curE).deleted,
      (sourceRel rel = "" ∨ strStartsWith q (sourceRel rel) = true) →
      rebase (sourceRel rel) q ≠ "" →
      rebase (sourceRel rel) q ∈ (summarize_changes prevE curE).deleted →
      (rebase (sourceRel rel) q, "deleted") ∈ m)
  ∧ (sourceRel rel = "" → ∀ q ∈ (summarize_changes prevE curE).deleted, q ≠ "" →
      (q, "deleted") ∈ m)
  ∧ (∀ q ∈ (summarize_changes prevE curE).deleted,
      (sourceRel rel = "" ∨ strStartsWith q (sourceRel rel) = true) →
      rebase (sourceRel rel) q ≠ "" →
      rebase (sourceRel rel) q ∉ (summarize_changes prevE curE).deleted →
      isf (rebase (sourceRel rel) q) = false →
      ∀ v, (rebase (sourceRel rel) q, v) ∉ m) := by
  have hfm := load_changed_files_eq_filterMap prevE curE rel isf hP hC
  rw [hload] at hfm
  have hm := Option.some_inj.mp hfm
  have hB : ∀ q ∈ (summarize_changes prevE curE).deleted,
      (sourceRel rel = "" ∨ strStartsWith q (sourceRel rel) = true) →
      rebase (sourceRel rel) q ≠ "" →
      rebase (sourceRel rel) q ∈ (summarize_changes prevE curE).deleted →
      (rebase (sourceRel rel) q, "deleted") ∈ m := by
    intro q hq hin hk hdel
    rw [hm]
    refine List.mem_filterMap.mpr ⟨q, List.mem_append_right _ hq, ?_⟩
    rw [changed_file_step_inside _ _ _ _ hin,
      changed_file_core_deleted_eq _ _ isf _ hk hdel]
  refine ⟨?_, hB, ?_, ?_⟩
  · intro q hq hin hk hnd
    constructor
    · rintro ⟨v, hv⟩
      rw [hm] at hv
      rcases List.mem_filterMap.mp hv with ⟨q', hq', hstep⟩
      have hqq : q' = q := step_origin_unique (sourceRel rel)
        (summarize_changes prevE curE) isf q q' (rebase (sourceRel rel) q, v)
        hin hstep rfl
      subst hqq
      rw [changed_file_step_inside _ _ _ _ hin] at hstep
      by_contra hisf
      rw [changed_file_core_missing_eq _ _ isf _ hk hnd (by simpa using hisf)] at hstep
      cases hstep
    · intro hisf
      rcases changed_file_core_exists_eq (sourceRel rel)
        (summarize_changes prevE curE) isf q hk hnd hisf with ⟨v, hcore⟩
      refine ⟨v, ?_⟩
      rw [hm]
      refine List.mem_filterMap.mpr ⟨q, List.mem_append_left _ hq, ?_⟩
      rw [changed_file_step_inside _ _ _ _ hin, hcore]
  · intro hpre q hq hqne
    have hb := hB q hq (Or.inl hpre)
      (by rw [hpre, rebase_empty]; exact hqne)
      (by rw [hpre, rebase_empty]; exact hq)
    rw [hpre, rebase_empty] at hb
    exact hb
  · intro q hq hin hk hnd hisf v hv
    rw [hm] at hv
    rcases List.mem_filterMap.mp hv with ⟨q', hq', hstep⟩
    have hqq : q' = q := step_origin_unique (sourceRel rel)
      (summarize_changes prevE curE) isf q q' (rebase (sourceRel rel) q, v)
      hin hstep rfl
    subst hqq
    rw [changed_file_step_inside _ _ _ _ hin,
      changed_file_core_missing_eq _ _ isf _ hk hnd hisf] at hstep
    cases hstep

/-- Witness for the amended C10 at a concrete input with the source directory
equal to the root: a deleted path is retained with the `"deleted"` status
without any existence check (the existence oracle here reports every file as
missing). -/
theorem changed_files_existence_filter_witness :
    load_changed_files true (some (some [("gone.py", ⟨"g", 1, 0⟩)])) (some [])
      (some "") (fun _ => false) = some [("gone.py", "deleted")] ∧
    ("gone.py", "deleted") ∈ [("gone.py", "deleted")] := by
  have h := changed_files_existence_filter [("gone.py", ⟨"g", 1, 0⟩)] [] ""
    (fun _ => false) [("gone.py", "deleted")] (by decide) (by decide) (by decide)
  exact ⟨by decide, h.2.2.1 rfl "gone.py" (by decide) (by decide)⟩

/-- Counterexample to C10 as stated: under the non-empty source path `src/`
the deleted path `src/gone.py` is not retained in the changed-file mapping at
all (neither under its rebased nor its original name), because the rebased
name is compared against the unrebased deleted list and then subjected to the
existence check. -/
theorem changed_files_deleted_dropped_counterexample :
    load_changed_files true
      (some (some [("src/gone.py", ⟨"g", 1, 0⟩), ("src/mod.py", ⟨"m1", 1, 0⟩)]))
      (some [("src/mod.py", ⟨"m2", 1, 0⟩)])
      (some "src") (fun p => decide (p = "mod.py"))
      = some [("mod.py", "updated")] ∧
    ("gone.py", "deleted") ∉ [("mod.py", "updated")] ∧
    ("src/gone.py", "deleted") ∉ [("mod.py", "updated")] := by
  refine ⟨by decide, by decide, by decide⟩

/-- Claim C6 (code-bug exhibit): with the repository's own layout — a `src/`
source sub-directory — a file deleted between two snapshots is dropped from
the changed-file mapping (`_load_changed_files` compares the rebased name
against the unrebased deleted list and the rebased file then fails the
existence check), so the combined text carries no
`### FILE: <path> (deleted)` header for it, against the spec's "deleted paths
are retained as a distinct marker". -/
theorem deleted_marker_lost_under_src_subdir :
    load_changed_files true
      (some (some [("src/foo.py", ⟨"f1", 2, 0⟩), ("src/keep.py", ⟨"k1", 2, 0⟩)]))
      (some [("src/keep.py", ⟨"k2", 2, 0⟩)])
      (some "src") (fun p => decide (p = "keep.py"))
      = some [("keep.py", "updated")] ∧
    combine_src_files [("keep.py", ["pass"])] (some [("keep.py", "updated")])
      = ["### FILE: keep.py (updated)", "[1] pass", ""] := by
  constructor
  · decide
  · decide

/-- Claim C1: a missing prior manifest, an unreadable prior manifest, and an
unreadable current manifest all make the update helper return the
"no usable prior state" signal (never an exception), and the orchestrator
decision rule (modelled from the spec, the cli layer being outside the
provided tree) maps a missing prior manifest to full regeneration — a
distinct outcome from "no work". -/
theorem no_usable_prior_state_forces_full :
    (∀ cur rel isf, load_changed_files true none cur rel isf = none)
  ∧ (∀ cur rel isf, load_changed_files true (some none) cur rel isf = none)
  ∧ (∀ prevE rel isf, load_changed_files true (some (some prevE)) none rel isf = none)
  ∧ (∀ cur, plan none cur = RegenerationPlan.full)
  ∧ RegenerationPlan.full ≠ RegenerationPlan.noWork := by
  refine ⟨fun cur rel isf => rfl, fun cur rel isf => ?_, fun prevE rel isf => ?_,
    fun cur => rfl, by decide⟩
  · cases cur <;> rfl
  · rfl

/-- Witness for C1 at a concrete input: no prior manifest yields the `none`
signal and the full-regeneration plan. -/
theorem no_usable_prior_state_forces_full_witness :
    load_changed_files true none (some [("a.py", ⟨"h", 1, 0⟩)]) (some "")
      (fun _ => true) = none ∧
    plan none [("a.py", ⟨"h", 1, 0⟩)] = RegenerationPlan.full := by
  have h := no_usable_prior_state_forces_full
  exact ⟨h.1 (some [("a.py", ⟨"h", 1, 0⟩)]) (some "") (fun _ => true),
    h.2.2.2.1 [("a.py", ⟨"h", 1, 0⟩)]⟩

/-- Claim C2: for every pair of manifests whose diff has empty added,
modified and deleted components — in particular any pair related only by
mtime/size drift with equal hashes — `_load_changed_files` returns the empty
mapping, a signal distinct from the `none` "no usable prior state", the
update helper returns without producing any artifact or writing a schema,
and the orchestrator (modelled from the spec) signals "no work" and persists
no new manifest for the run; moreover diffing any manifest against itself
(snapshot+diff twice with no filesystem change) always yields the empty
ChangeSet. -/
theorem empty_changeset_signals_no_work
    (P C m : List (String × ManifestEntry)) (rel : Option String)
    (isf : String → Bool) (gen : Except String String) (ov : Bool)
    (hempty : (summarize_changes P C).added = [] ∧
      (summarize_changes P C).modified = [] ∧
      (summarize_changes P C).deleted = []) :
    load_changed_files true (some (some P)) (some C) rel isf = some []
  ∧ load_changed_files true (some (some P)) (some C) rel isf ≠ none
  ∧ update_overview_decision (some []) gen ov = (none, false)
  ∧ plan (some P) C = RegenerationPlan.noWork
  ∧ persists_new_manifest (plan (some P) C) = false
  ∧ summarize_changes m m = ⟨[], [], []⟩ := by
  obtain ⟨h1, h2, h3⟩ := hempty
  have hs : summarize_changes m m = ⟨[], [], []⟩ := by
    unfold summarize_changes
    have hm1 : (manifestKeys m).filter (fun k => (lookupEntry m k).isNone) = [] := by
      apply List.filter_eq_nil_iff.mpr
      intro k hk
      have hsome := (lookupEntry_isSome_iff_mem m k).mpr hk
      cases h : lookupEntry m k
      · rw [h] at hsome; simp at hsome
      · simp [h]
    have hm2 : (manifestKeys m).filter (fun k =>
        match lookupEntry m k, lookupEntry m k with
        | some ep, some ec => decide (ep.hash ≠ ec.hash)
        | _, _ => false) = [] := by
      apply List.filter_eq_nil_iff.mpr
      intro k hk
      cases h : lookupEntry m k
      · simp [h]
      · simp [h]
    rw [hm1, hm2]
  refine ⟨?_, ?_, rfl, ?_, ?_, hs⟩
  · simp [load_changed_files, h1, h2, h3]
  · simp [load_changed_files, h1, h2, h3]
  · simp [plan, h1, h2, h3]
  · simp [plan, h1, h2, h3, persists_new_manifest]

/-! ## Theorems: downstream failure handling (C8) -/

/-- Claim C8: a failure of the downstream schema-generation service is caught
at the orchestration boundary of both the generate and the update path,
surfacing as "no artifact produced" (the function returns `none`) with no
overview schema written for that run, and every failure mode of the d2
renderer (missing binary, raised exception, non-zero exit code) likewise
yields `none`. -/
theorem downstream_failure_caught (af : Option (List (String × String)))
    (e : String) (ov : Bool) (out err p : String) (rc : Int) :
    update_overview_decision af (.error e) ov = (none, false)
  ∧ generate_overview_decision (.error e) ov = (none, false)
  ∧ render_to_png .binMissing p = none
  ∧ render_to_png (.launchFailure e) p = none
  ∧ (rc ≠ 0 → render_to_png (.finished rc out err) p = none) := by
  refine ⟨?_, rfl, rfl, rfl, ?_⟩
  · cases af with
    | none => rfl
    | some l => cases l <;> rfl
  · intro h
    simp [render_to_png, h]

/-- Witness for C8 at concrete inputs: a failing generation call on the
update path and a d2 exit code of 1 both produce no artifact. -/
theorem downstream_failure_caught_witness :
    update_overview_decision (some [("a.py", "added")]) (.error "boom") true
      = (none, false) ∧
    render_to_png (.finished 1 "" "err") "overview.png" = none := by
  have h := downstream_failure_caught (some [("a.py", "added")]) "boom" true ""
    "err" "overview.png" 1
  exact ⟨h.1, h.2.2.2.2 (by decide)⟩

/-! ## Theorems: the filesystem model and the legacy marker (C9) -/

theorem fsLookup_fsRemove_self (s : List (String × FsNode)) (p : String) :
    fsLookup (fsRemove s p) p = none := by
  induction s with
  | nil => rfl
  | cons e t ih =>
    obtain ⟨a, n⟩ := e
    unfold fsRemove at ih ⊢
    rw [List.filter_cons]
    by_cases hap : a = p
    · rw [if_neg (by simp [hap])]
      exact ih
    · rw [if_pos (by simp [hap])]
      show (if a = p then some n else fsLookup (List.filter _ t) p) = none
      rw [if_neg hap]
      exact ih

theorem fsLookup_fsRemove_other (s : List (String × FsNode)) (p q : String)
    (h : p ≠ q) : fsLookup (fsRemove s p) q = fsLookup s q := by
  induction s with
  | nil => rfl
  | cons e t ih =>
    obtain ⟨a, n⟩ := e
    unfold fsRemove at ih ⊢
    rw [List.filter_cons]
    by_cases hap : a = p
    · rw [if_neg (by simp [hap])]
      show fsLookup (List.filter _ t) q = (if a = q then some n else fsLookup t q)
      rw [if_neg (by rw [hap]; exact fun hc => h hc)]
      exact ih
    · rw [if_pos (by simp [hap])]
      show (if a = q then some n else fsLookup (List.filter _ t) q)
        = (if a = q then some n else fsLookup t q)
      by_cases haq : a = q
      · rw [if_pos haq, if_pos haq]
      · rw [if_neg haq, if_neg haq]
        exact ih

theorem fsLookup_append (l1 l2 : List (String × FsNode)) (q : String) :
    fsLookup (l1 ++ l2) q = match fsLookup l1 q with
      | some n => some n
      | none => fsLookup l2 q := by
  induction l1 with
  | nil => rfl
  | cons e t ih =>
    obtain ⟨a, n⟩ := e
    by_cases haq : a = q
    · show (if a = q then some n else fsLookup (t ++ l2) q) = _
      rw [if_pos haq]
      show some n = (match (if a = q then some n else fsLookup t q) with
        | some n => some n
        | none => fsLookup l2 q)
      rw [if_pos haq]
    · show (if a = q then some n else fsLookup (t ++ l2) q) = _
      rw [if_neg haq]
      show fsLookup (t ++ l2) q = (match (if a = q then some n else fsLookup t q) with
        | some n => some n
        | none => fsLookup l2 q)
      rw [if_neg haq]
      exact ih

theorem fsLookup_fsInsert_self (s : List (String × FsNode)) (p : String)
    (n : FsNode) : fsLookup (fsInsert s p n) p = some n := by
  unfold fsInsert
  rw [fsLookup_append, fsLookup_fsRemove_self]
  show (if p = p then some n else none) = some n
  rw [if_pos rfl]

theorem fsLookup_fsInsert_other (s : List (String × FsNode)) (p : String)
    (n : FsNode) (q : String) (h : p ≠ q) :
    fsLookup (fsInsert s p n) q = fsLookup s q := by
  unfold fsInsert
  rw [fsLookup_append, fsLookup_fsRemove_other s p q h]
  cases hs : fsLookup s q
  · show (if p = q then some n else none) = none
    rw [if_neg h]
  · rfl

/-- Claim C9: starting from a state where a legacy regular file occupies
`root/.unslop`, the first run replaces it by a directory, and the newly
computed manifest is still written into the run's manifest area and
preserved. -/
theorem legacy_marker_replaced_and_manifest_kept
    (s : List (String × FsNode)) (root run_id content legacy : String)
    (hmarker : fsLookup s (root ++ "/.unslop") = some (.file legacy))
    (h1 : root ++ "/.unslop" ≠ root ++ "/.unslop/manifest")
    (h2 : root ++ "/.unslop"
      ≠ root ++ "/.unslop/manifest" ++ "/manifest-" ++ run_id ++ ".json") :
    fsLookup (first_run_persist s root run_id content) (root ++ "/.unslop")
      = some .dir ∧
    fsLookup (first_run_persist s root run_id content)
      (root ++ "/.unslop/manifest" ++ "/manifest-" ++ run_id ++ ".json")
      = some (.file content) := by
  have hunlink : ensure_unslop_unlink s root = fsRemove s (root ++ "/.unslop") := by
    unfold ensure_unslop_unlink
    rw [if_pos ⟨by rw [hmarker]; rfl, by rw [hmarker]; simp⟩]
  have hens : ensure_unslop_dir s root
      = fsInsert (fsRemove s (root ++ "/.unslop")) (root ++ "/.unslop") FsNode.dir := by
    unfold ensure_unslop_dir
    rw [hunlink]
    rw [if_neg (by rw [fsLookup_fsRemove_self]; simp)]
  have hdir : fsLookup (ensure_unslop_dir s root) (root ++ "/.unslop")
      = some FsNode.dir := by
    rw [hens, fsLookup_fsInsert_self]
  constructor
  · unfold first_run_persist
    rw [fsLookup_fsInsert_other _ _ _ _ (Ne.symm h2)]
    by_cases hmd :
        (fsLookup (ensure_unslop_dir s root) (root ++ "/.unslop/manifest")).isSome
    · rw [if_pos hmd]
      exact hdir
    · rw [if_neg hmd, fsLookup_fsInsert_other _ _ _ _ (Ne.symm h1)]
      exact hdir
  · unfold first_run_persist
    rw [fsLookup_fsInsert_self]

/-- Witness for C9 at a concrete state: a legacy `.unslop` marker file is
replaced by a directory and the new manifest file is present afterwards. -/
theorem legacy_marker_replaced_witness :
    fsLookup (first_run_persist [("/p/.unslop", FsNode.file "legacy marker")]
      "/p" "20250101T000000Z-0000" "{}") "/p/.unslop" = some FsNode.dir ∧
    fsLookup (first_run_persist [("/p/.unslop", FsNode.file "legacy marker")]
      "/p" "20250101T000000Z-0000" "{}")
      "/p/.unslop/manifest/manifest-20250101T000000Z-0000.json"
      = some (FsNode.file "{}") := by
  have h := legacy_marker_replaced_and_manifest_kept
    [("/p/.unslop", FsNode.file "legacy marker")] "/p" "20250101T000000Z-0000"
    "{}" "legacy marker" (by decide) (by decide) (by decide)
  exact ⟨h.1, h.2⟩

/-! ## Theorems: per-node artifact reuse (C4) -/

theorem reuse_previous_node_diagram_iff (src_is_file copy_ok : String → String → Bool)
    (nid : String) :
    reuse_previous_node_diagram src_is_file copy_ok nid = true ↔
      ((src_is_file nid "json" = true ∧ copy_ok nid "json" = true) ∨
        (src_is_file nid "d2" = true ∧ copy_ok nid "d2" = true)) := by
  unfold reuse_previous_node_diagram
  cases h1 : src_is_file nid "json" <;> cases h2 : copy_ok nid "json" <;>
    cases h3 : src_is_file nid "d2" <;> cases h4 : copy_ok nid "d2" <;>
    simp [h1, h2, h3, h4]

theorem node_regen_step_eq_some (unchanged : List String)
    (src_is_file copy_ok : String → String → Bool) (n : SchemaNode) (x : String) :
    node_regen_step unchanged src_is_file copy_ok n = some x ↔
      x = n.id ∧ n.id ≠ "" ∧ (n.id ∉ unchanged ∨
        reuse_previous_node_diagram src_is_file copy_ok n.id = false) := by
  unfold node_regen_step
  by_cases h1 : n.id = ""
  · rw [if_pos h1]
    simp [h1]
  · rw [if_neg h1]
    by_cases h2 : n.id ∉ unchanged
    · rw [if_pos h2]
      constructor
      · intro h
        injection h with h'
        exact ⟨h'.symm, h1, Or.inl h2⟩
      · rintro ⟨hx, _, _⟩
        rw [hx]
    · rw [if_neg h2]
      by_cases h3 : reuse_previous_node_diagram src_is_file copy_ok n.id = false
      · rw [if_pos h3]
        constructor
        · intro h
          injection h with h'
          exact ⟨h'.symm, h1, Or.inr h3⟩
        · rintro ⟨hx, _, _⟩
          rw [hx]
      · rw [if_neg h3]
        constructor
        · intro h
          cases h
        · rintro ⟨hx, hne, hcond⟩
          rcases hcond with hc | hc
          · exact absurd hc h2
          · exact absurd hc h3

theorem node_foldl_eq (unchanged : List String)
    (src_is_file copy_ok : String → String → Bool) (ns : List SchemaNode)
    (acc : List String) :
    ns.foldl (fun acc n =>
      if n.id = "" then acc
      else if n.id ∉ unchanged then acc ++ [n.id]
      else if reuse_previous_node_diagram src_is_file copy_ok n.id = false then
        acc ++ [n.id]
      else acc) acc
    = acc ++ ns.filterMap (node_regen_step unchanged src_is_file copy_ok) := by
  induction ns generalizing acc with
  | nil => simp
  | cons n t ih =>
    rw [List.foldl_cons, List.filterMap_cons]
    by_cases h1 : n.id = ""
    · rw [if_pos h1]
      rw [show node_regen_step unchanged src_is_file copy_ok n = none by
        simp [node_regen_step, h1]]
      exact ih acc
    · by_cases h2 : n.id ∉ unchanged
      · rw [if_neg h1, if_pos h2]
        rw [show node_regen_step unchanged src_is_file copy_ok n = some n.id by
          simp [node_regen_step, h1, h2]]
        rw [ih (acc ++ [n.id]), List.append_assoc]
        rfl
      · by_cases h3 : reuse_previous_node_diagram src_is_file copy_ok n.id = false
        · rw [if_neg h1, if_neg h2, if_pos h3]
          rw [show node_regen_step unchanged src_is_file copy_ok n = some n.id by
            simp [node_regen_step, h1, h2, h3]]
          rw [ih (acc ++ [n.id]), List.append_assoc]
          rfl
        · rw [if_neg h1, if_neg h2, if_neg h3]
          rw [show node_regen_step unchanged src_is_file copy_ok n = none by
            simp [node_regen_step, h1, h2, h3]]
          exact ih acc

theorem mem_node_unchanged_ids (ns : List SchemaNode) (x : String) :
    x ∈ node_unchanged_ids ns ↔
      ∃ n ∈ ns, n.status = "unchanged" ∧ n.id ≠ "" ∧ n.id = x := by
  unfold node_unchanged_ids
  constructor
  · intro h
    rcases List.mem_map.mp h with ⟨n, hn, hx⟩
    rcases List.mem_filter.mp hn with ⟨hmem, hpred⟩
    simp only [decide_eq_true_eq] at hpred
    exact ⟨n, hmem, hpred.1, hpred.2, hx⟩
  · rintro ⟨n, hn, hstat, hne, hx⟩
    exact List.mem_map.mpr ⟨n, List.mem_filter.mpr ⟨hn, by
      simp only [decide_eq_true_eq]; exact ⟨hstat, hne⟩⟩, hx⟩

/-- Claim C4: given a previous run directory and a schema whose nodes carry
non-empty pairwise-distinct ids, the effective regeneration set contains a
node exactly when it is not marked unchanged or when no artifact file of it
was copied successfully from the previous run; reuse of an unchanged node
succeeds iff at least one of the two artifact kinds exists and copies
(partial copy counts as success), and the preparation returns a value for
every combination of copy outcomes — individual copy failures never abort
the batch. -/
theorem artifact_reuse_regen_set (ns : List SchemaNode)
    (src_is_file copy_ok : String → String → Bool)
    (hid : ∀ n ∈ ns, n.id ≠ "") (hnd : (ns.map (fun n => n.id)).Nodup) :
    (∀ n ∈ ns,
      n.id ∈ effective_regen_set
          (prepare_node_diagram_inputs true (some ns) src_is_file copy_ok) ns ↔
        (n.status ≠ "unchanged" ∨
          reuse_previous_node_diagram src_is_file copy_ok n.id = false))
  ∧ (∀ nid, reuse_previous_node_diagram src_is_file copy_ok nid = true ↔
      ((src_is_file nid "json" = true ∧ copy_ok nid "json" = true) ∨
        (src_is_file nid "d2" = true ∧ copy_ok nid "d2" = true))) := by
  refine ⟨?_, fun nid => reuse_previous_node_diagram_iff src_is_file copy_ok nid⟩
  have hinj : ∀ a ∈ ns, ∀ b ∈ ns, a.id = b.id → a = b := fun a ha b hb hab =>
    List.inj_on_of_nodup_map hnd ha hb hab
  have hmemu : ∀ n ∈ ns, (n.id ∈ node_unchanged_ids ns ↔ n.status = "unchanged") := by
    intro n hn
    constructor
    · intro h
      rcases (mem_node_unchanged_ids ns n.id).mp h with ⟨n', hn', hstat, _, hidq⟩
      rw [← hinj n' hn' n hn hidq]
      exact hstat
    · intro h
      exact (mem_node_unchanged_ids ns n.id).mpr ⟨n, hn, h, hid n hn, rfl⟩
  intro n hn
  rw [show prepare_node_diagram_inputs true (some ns) src_is_file copy_ok =
      (if node_unchanged_ids ns = [] then none
       else some (ns.foldl (fun acc n =>
         if n.id = "" then acc
         else if n.id ∉ node_unchanged_ids ns then acc ++ [n.id]
         else if reuse_previous_node_diagram src_is_file copy_ok n.id = false then
           acc ++ [n.id]
         else acc) [])) from rfl]
  by_cases hu : node_unchanged_ids ns = []
  · rw [if_pos hu]
    unfold effective_regen_set
    have hlhs : n.id ∈ (ns.filter (fun n => decide (n.id ≠ ""))).map (fun n => n.id) :=
      List.mem_map.mpr ⟨n, List.mem_filter.mpr ⟨hn, by
        simp only [decide_eq_true_eq]; exact hid n hn⟩, rfl⟩
    have hrhs : n.status ≠ "unchanged" := by
      intro hstat
      have := (hmemu n hn).mpr hstat
      rw [hu] at this
      cases this
    constructor
    · intro _
      exact Or.inl hrhs
    · intro _
      exact hlhs
  · rw [if_neg hu]
    unfold effective_regen_set
    rw [node_foldl_eq]
    rw [List.nil_append]
    constructor
    · intro h
      rcases List.mem_filterMap.mp h with ⟨n', hn', hstep⟩
      rcases (node_regen_step_eq_some _ _ _ n' n.id).mp hstep with ⟨hidq, _, hcond⟩
      have hnn : n' = n := hinj n' hn' n hn hidq.symm
      subst hnn
      rcases hcond with hu' | hre
      · exact Or.inl (fun hstat => hu' ((hmemu n' hn').mpr hstat))
      · exact Or.inr hre
    · intro h
      refine List.mem_filterMap.mpr ⟨n, hn, ?_⟩
      refine (node_regen_step_eq_some _ _ _ n n.id).mpr ⟨rfl, hid n hn, ?_⟩
      rcases h with hstat | hre
      · exact Or.inl (fun hmem => hstat ((hmemu n hn).mp hmem))
      · exact Or.inr hre

/-- Witness for C4 at a concrete schema: the changed node is regenerated and
the unchanged node with a successfully copied artifact is not. -/
theorem artifact_reuse_regen_set_witness :
    "b" ∈ effective_regen_set
      (prepare_node_diagram_inputs true
        (some [⟨"a", "unchanged"⟩, ⟨"b", "changed"⟩])
        (fun i s => decide (i = "a" ∧ s = "json")) (fun _ _ => true))
      [⟨"a", "unchanged"⟩, ⟨"b", "changed"⟩] ∧
    "a" ∉ effective_regen_set
      (prepare_node_diagram_inputs true
        (some [⟨"a", "unchanged"⟩, ⟨"b", "changed"⟩])
        (fun i s => decide (i = "a" ∧ s = "json")) (fun _ _ => true))
      [⟨"a", "unchanged"⟩, ⟨"b", "changed"⟩] := by
  have h := artifact_reuse_regen_set [⟨"a", "unchanged"⟩, ⟨"b", "changed"⟩]
    (fun i s => decide (i = "a" ∧ s = "json")) (fun _ _ => true)
    (by decide) (by decide)
  constructor
  · exact (h.1 ⟨"b", "changed"⟩ (by decide)).mpr (Or.inl (by decide))
  · intro ha
    rcases (h.1 ⟨"a", "unchanged"⟩ (by decide)).mp ha with hst | hre
    · exact hst rfl
    · have htrue := (h.2 "a").mpr (Or.inl ⟨by decide, by decide⟩)
      rw [hre] at htrue
      cases htrue

/-! ## Theorems: run-directory naming and ordering (C7) -/

theorem strMk_data (l : List Char) : (String.mk l).data = l := rfl

theorem natDigitChar_isDigit (n : Nat) : (natDigitChar n).isDigit = true := by
  unfold natDigitChar
  split <;> decide

theorem decChars_digits (n : Nat) : ∀ c ∈ decChars n, c.isDigit = true := by
  induction n using Nat.strong_induction_on with
  | _ n ih =>
    rw [decChars]
    by_cases h : n < 10
    · rw [dif_pos h]
      intro c hc
      simp only [List.mem_singleton] at hc
      subst hc
      exact natDigitChar_isDigit n
    · rw [dif_neg h]
      intro c hc
      rcases List.mem_append.mp hc with h' | h'
      · exact ih (n / 10) (Nat.div_lt_self (by omega) (by omega)) c h'
      · simp only [List.mem_singleton] at h'
        subst h'
        exact natDigitChar_isDigit n

theorem decChars_length_le : ∀ n w, 1 ≤ w → n < 10 ^ w → (decChars n).length ≤ w := by
  intro n
  induction n using Nat.strong_induction_on with
  | _ n ih =>
    intro w hw hlt
    rw [decChars]
    by_cases h10 : n < 10
    · rw [dif_pos h10]
      simpa using hw
    · rw [dif_neg h10]
      rw [List.length_append]
      have hw2 : 2 ≤ w := by
        by_contra hc
        have hw1 : w = 1 := by omega
        subst hw1
        rw [pow_one] at hlt
        omega
      have hdiv : n / 10 < 10 ^ (w - 1) := by
        have hp : 10 ^ (w - 1) * 10 = 10 ^ w := by
          rw [← pow_succ]
          congr 1
          omega
        rw [Nat.div_lt_iff_lt_mul (by omega)]
        rw [hp]
        exact hlt
      have hrec := ih (n / 10) (Nat.div_lt_self (by omega) (by omega)) (w - 1)
        (by omega) hdiv
      simp only [List.length_singleton]
      omega

theorem padDigits_length (w n : Nat) (hw : 1 ≤ w) (h : n < 10 ^ w) :
    (padDigits w n).length = w := by
  unfold padDigits
  rw [List.length_append, List.length_replicate]
  have := decChars_length_le n w hw h
  omega

theorem padDigits_digits (w n : Nat) : ∀ c ∈ padDigits w n, c.isDigit = true := by
  intro c hc
  unfold padDigits at hc
  rcases List.mem_append.mp hc with h | h
  · rw [List.eq_of_mem_replicate h]
    decide
  · exact decChars_digits n c h

theorem expectDigits_append_add (l r : List Char) (n : Nat)
    (h : ∀ c ∈ l, c.isDigit = true) :
    expectDigits (l.length + n) (l ++ r) = expectDigits n r := by
  induction l with
  | cons c t ih =>
    show expectDigits (t.length + 1 + n) (c :: (t ++ r)) = expectDigits n r
    rw [show t.length + 1 + n = (t.length + n) + 1 from by omega]
    simp only [expectDigits]
    rw [if_pos (h c (List.mem_cons_self c t))]
    exact ih (fun c hc => h c (List.mem_cons_of_mem _ hc))
  | nil =>
    rw [show List.length ([] : List Char) + n = n from by simp, List.nil_append]

theorem expectDigits_exact (l : List Char) (h : ∀ c ∈ l, c.isDigit = true) :
    expectDigits l.length l = some [] := by
  induction l with
  | cons c t ih =>
    simp only [List.length_cons, expectDigits]
    rw [if_pos (h c (List.mem_cons_self c t))]
    exact ih (fun c hc => h c (List.mem_cons_of_mem _ hc))
  | nil => rfl

theorem expectChar_cons (c : Char) (l : List Char) :
    expectChar c (c :: l) = some l := by
  show (if c = c then some l else none) = some l
  rw [if_pos rfl]

theorem expectDigits_pad (w n k : Nat) (r : List Char) (hw : 1 ≤ w)
    (hn : n < 10 ^ w) :
    expectDigits (w + k) (padDigits w n ++ r) = expectDigits k r := by
  have h := expectDigits_append_add (padDigits w n) r k (padDigits_digits w n)
  rw [padDigits_length w n hw hn] at h
  exact h

theorem run_dir_name_format_matches (y mo d h mi s suffix : Nat)
    (hy : y < 10000) (hmo : mo < 100) (hd : d < 100) (hh : h < 100)
    (hmi : mi < 100) (hs : s < 100) (hsuf : suffix < 10000) :
    run_dir_name_matches (run_dir_name y mo d h mi s suffix) = true := by
  have p4 : (10 : Nat) ^ 4 = 10000 := by norm_num
  have p2 : (10 : Nat) ^ 2 = 100 := by norm_num
  have e1 : (padDigits 4 y).length = 4 :=
    padDigits_length 4 y (by omega) (by rw [p4]; exact hy)
  have e2 : (padDigits 2 mo).length = 2 :=
    padDigits_length 2 mo (by omega) (by rw [p2]; exact hmo)
  have e3 : (padDigits 2 d).length = 2 :=
    padDigits_length 2 d (by omega) (by rw [p2]; exact hd)
  have e4 : (padDigits 2 h).length = 2 :=
    padDigits_length 2 h (by omega) (by rw [p2]; exact hh)
  have e5 : (padDigits 2 mi).length = 2 :=
    padDigits_length 2 mi (by omega) (by rw [p2]; exact hmi)
  have e6 : (padDigits 2 s).length = 2 :=
    padDigits_length 2 s (by omega) (by rw [p2]; exact hs)
  have e7 : (padDigits 4 suffix).length = 4 :=
    padDigits_length 4 suffix (by omega) (by rw [p4]; exact hsuf)
  have h1 : expectDigits 8 (padDigits 4 y ++ (padDigits 2 mo ++ (padDigits 2 d ++
      ('T' :: (padDigits 2 h ++ (padDigits 2 mi ++ (padDigits 2 s ++
        ('Z' :: '-' :: padDigits 4 suffix))))))))
      = some ('T' :: (padDigits 2 h ++ (padDigits 2 mi ++ (padDigits 2 s ++
        ('Z' :: '-' :: padDigits 4 suffix))))) := by
    show expectDigits (4 + 4) _ = _
    rw [expectDigits_pad 4 y 4 _ (by omega) (by rw [p4]; exact hy)]
    show expectDigits (2 + 2) _ = _
    rw [expectDigits_pad 2 mo 2 _ (by omega) (by rw [p2]; exact hmo)]
    show expectDigits (2 + 0) _ = _
    rw [expectDigits_pad 2 d 0 _ (by omega) (by rw [p2]; exact hd)]
    rfl
  have h2 : expectDigits 6 (padDigits 2 h ++ (padDigits 2 mi ++ (padDigits 2 s ++
      ('Z' :: '-' :: padDigits 4 suffix))))
      = some ('Z' :: '-' :: padDigits 4 suffix) := by
    show expectDigits (2 + 4) _ = _
    rw [expectDigits_pad 2 h 4 _ (by omega) (by rw [p2]; exact hh)]
    show expectDigits (2 + 2) _ = _
    rw [expectDigits_pad 2 mi 2 _ (by omega) (by rw [p2]; exact hmi)]
    show expectDigits (2 + 0) _ = _
    rw [expectDigits_pad 2 s 0 _ (by omega) (by rw [p2]; exact hs)]
    rfl
  have h3 : expectDigits 4 (padDigits 4 suffix) = some [] := by
    have hex := expectDigits_exact (padDigits 4 suffix) (padDigits_digits 4 suffix)
    rw [e7] at hex
    exact hex
  unfold run_dir_name_matches run_dir_name
  rw [strMk_data]
  simp only [List.append_assoc, List.cons_append, List.nil_append]
  rw [h1]
  simp only [Option.some_bind, expectChar_cons]
  rw [h2]
  simp only [Option.some_bind, expectChar_cons]
  rw [h3]

theorem sortStrings_perm (l : List String) : (sortStrings l).Perm l :=
  List.perm_insertionSort _ l

theorem sortStrings_sorted (l : List String) :
    (sortStrings l).Pairwise (fun a b => a ≤ b) :=
  List.sorted_insertionSort _ l

theorem list_run_dirs_mem (entries : List (String × Bool)) (x : String) :
    x ∈ list_run_dirs true entries ↔
      ((x, true) ∈ entries ∧ run_dir_name_matches x = true) := by
  unfold list_run_dirs
  rw [if_neg (by simp)]
  rw [(sortStrings_perm _).mem_iff]
  constructor
  · intro h
    rcases List.mem_map.mp h with ⟨e, he, hx⟩
    rcases List.mem_filter.mp he with ⟨hmem, hcond⟩
    rcases e with ⟨nm, isd⟩
    simp only [Bool.and_eq_true] at hcond
    subst hx
    have hisd : isd = true := hcond.1
    subst hisd
    exact ⟨hmem, hcond.2⟩
  · rintro ⟨hmem, hmatch⟩
    exact List.mem_map.mpr ⟨(x, true), List.mem_filter.mpr ⟨hmem, by
      simp [hmatch]⟩, rfl⟩

theorem list_run_dirs_sorted_le (b : Bool) (entries : List (String × Bool)) :
    (list_run_dirs b entries).Pairwise (fun a b => a ≤ b) := by
  unfold list_run_dirs
  cases b
  · rw [if_pos rfl]
    exact List.Pairwise.nil
  · rw [if_neg (by simp)]
    exact sortStrings_sorted _

/-- Claim C7: every run-directory name produced by `create_run_dir` matches
the pattern `<8 digits>T<6 digits>Z-<4 digits>`; `list_run_dirs` returns
exactly the child directories of the state root whose names match that
pattern, in ascending lexicographic order of name (and nothing when the
state root is not a directory); and `latest_run_dir` is the last element of
that list, or `none` exactly when the list is empty. -/
theorem run_dirs_naming_and_ordering (y mo d h mi s suffix : Nat)
    (entries : List (String × Bool)) (x : String)
    (hy : y < 10000) (hmo : mo < 100) (hd : d < 100) (hh : h < 100)
    (hmi : mi < 100) (hs : s < 100) (hsuf : suffix < 10000) :
    run_dir_name_matches (run_dir_name y mo d h mi s suffix) = true
  ∧ (x ∈ list_run_dirs true entries ↔
      ((x, true) ∈ entries ∧ run_dir_name_matches x = true))
  ∧ list_run_dirs false entries = []
  ∧ (list_run_dirs true entries).Pairwise (fun a b => a ≤ b)
  ∧ latest_run_dir true entries = (list_run_dirs true entries).getLast?
  ∧ (latest_run_dir true entries = none ↔ list_run_dirs true entries = []) := by
  refine ⟨run_dir_name_format_matches y mo d h mi s suffix hy hmo hd hh hmi hs hsuf,
    list_run_dirs_mem entries x, rfl, list_run_dirs_sorted_le true entries, rfl, ?_⟩
  unfold latest_run_dir
  exact List.getLast?_eq_none_iff

/-- Witness for C7 at concrete values: the name built from a concrete UTC
time matches the pattern, and a concrete listing keeps exactly the matching
directory, sorted, with `latest_run_dir` returning it. -/
theorem run_dirs_naming_and_ordering_witness :
    run_dir_name_matches (run_dir_name 2025 1 2 3 4 5 678) = true ∧
    "20250102T030405Z-0678" ∈ list_run_dirs true
      [("20250102T030405Z-0678", true), ("junk", true), ("20240101T000000Z-0001", false)] := by
  have h := run_dirs_naming_and_ordering 2025 1 2 3 4 5 678
    [("20250102T030405Z-0678", true), ("junk", true), ("20240101T000000Z-0001", false)]
    "20250102T030405Z-0678"
    (by decide) (by decide) (by decide) (by decide) (by decide) (by decide) (by decide)
  exact ⟨h.1, (h.2.1).mpr ⟨by decide, by decide⟩⟩

/-- Witness for C2 at a concrete pair of distinct manifests with equal
hashes but different size and mtime (the hash-authoritative case): the diff
is empty, the run yields the empty mapping and the no-work plan with no
manifest persisted. -/
theorem empty_changeset_signals_no_work_witness :
    load_changed_files true (some (some [("a.py", ⟨"h", 1, 0⟩)]))
      (some [("a.py", ⟨"h", 2, 5⟩)]) (some "") (fun _ => true) = some [] ∧
    persists_new_manifest
      (plan (some [("a.py", ⟨"h", 1, 0⟩)]) [("a.py", ⟨"h", 2, 5⟩)]) = false := by
  have h := empty_changeset_signals_no_work [("a.py", ⟨"h", 1, 0⟩)]
    [("a.py", ⟨"h", 2, 5⟩)] [] (some "") (fun _ => true) (.ok "schema") true
    ⟨by decide, by decide, by decide⟩
  exact ⟨h.1, h.2.2.2.2.1⟩
